import Mathlib

/-!
Verification development for the aws-db CLI (a CloudFormation stack/resource
console navigator).  The definitions below are a shallow embedding of the
TypeScript source: pure helpers become Lean functions, the orchestration in
findStacksByMatch becomes an explicit function from an environment (the
external AWS / prompt collaborators) to a trace of network calls plus an
outcome, and JavaScript `undefined` becomes `Option`.
-/

set_option maxRecDepth 10000

namespace AwsDb

/-- Embedding of the AWS SDK record StackResourceSummary: the three fields the
program reads.  Every field is optional in the SDK type, so each is an
`Option String` (JS `undefined` is `none`). -/
structure StackResourceSummary where
  ResourceType : Option String
  LogicalResourceId : Option String
  PhysicalResourceId : Option String
deriving DecidableEq, Repr

/-- Embedding of the AWS SDK Stack record: only StackName is read. -/
structure Stack where
  StackName : Option String
deriving DecidableEq, Repr

/-- The allow list of resource types, verbatim from the source. -/
def resourceTypeAllowList : List String :=
  [ "AWS::DynamoDB::Table"
  , "AWS::Lambda::Function"
  , "AWS::Logs::LogGroup"
  , "AWS::ApiGateway::RestApi" ]

/-- Embedding of the JS string operation resourceId.replace(slash-regex, "$252F")
on the character list: the regex has no capture groups, so the replacement
string "$252F" is literal, and the g flag replaces every occurrence of "/". -/
def replaceSlashGlobal : List Char → List Char
  | [] => []
  | c :: cs =>
    if c = '/' then '$' :: '2' :: '5' :: '2' :: 'F' :: replaceSlashGlobal cs
    else c :: replaceSlashGlobal cs

/-- Embedding of constructResourceURL.  The TypeScript signature gives both
resourceType and resourceId the default value "unknown", which in JS applies
exactly when the passed argument is undefined, hence the getD on the `Option`
arguments.  The switch over the four supported types returns the per-type
console URL; every other type falls to the default branch and returns
undefined (`none`). -/
def constructResourceURL (resourceType resourceId : Option String)
    (region : String) : Option String :=
  let rt := resourceType.getD "unknown"
  let rid := resourceId.getD "unknown"
  let baseUrl := "https://" ++ region ++ ".console.aws.amazon.com"
  if rt = "AWS::DynamoDB::Table" then
    some (baseUrl ++ "/dynamodb/home?region=" ++ region ++ "#tables:selected="
      ++ rid ++ ";tab=overview")
  else if rt = "AWS::Lambda::Function" then
    some (baseUrl ++ "/lambda/home?region=" ++ region ++ "#/functions/" ++ rid)
  else if rt = "AWS::Logs::LogGroup" then
    some (baseUrl ++ "/cloudwatch/home?region=" ++ region
      ++ "#logsV2:log-groups/log-group/" ++ String.mk (replaceSlashGlobal rid.data))
  else if rt = "AWS::ApiGateway::RestApi" then
    some (baseUrl ++ "/apigateway/main/apis/" ++ rid ++ "/resources?api="
      ++ rid ++ "&region=" ++ region)
  else none

/-- The URL the resolver produces for the log-group example physicalId
"/aws/lambda/my-fn" in region "us-east-1". -/
def logGroupExampleUrl : String :=
  "https://us-east-1.console.aws.amazon.com/cloudwatch/home?region=us-east-1#logsV2:log-groups/log-group/$252Faws$252Flambda$252Fmy-fn"

/-- C1: for every region and physicalId the resolver maps exactly the four
allow-listed types to their per-type console URL templates with region and
physicalId substituted literally; for the log-group type every "/" in the
physicalId becomes the literal five-character sequence "$252F" (the example
physicalId "/aws/lambda/my-fn" yields a URL containing
"$252Faws$252Flambda$252Fmy-fn" and no occurrence of "%2F"); any type outside
the four yields none. -/
theorem constructResourceURL_c1 (region pid : String) :
    (constructResourceURL (some "AWS::DynamoDB::Table") (some pid) region =
      some (("https://" ++ region ++ ".console.aws.amazon.com")
        ++ "/dynamodb/home?region=" ++ region ++ "#tables:selected=" ++ pid
        ++ ";tab=overview"))
    ∧ (constructResourceURL (some "AWS::Lambda::Function") (some pid) region =
      some (("https://" ++ region ++ ".console.aws.amazon.com")
        ++ "/lambda/home?region=" ++ region ++ "#/functions/" ++ pid))
    ∧ (constructResourceURL (some "AWS::Logs::LogGroup") (some pid) region =
      some (("https://" ++ region ++ ".console.aws.amazon.com")
        ++ "/cloudwatch/home?region=" ++ region ++ "#logsV2:log-groups/log-group/"
        ++ String.mk (replaceSlashGlobal pid.data)))
    ∧ (constructResourceURL (some "AWS::ApiGateway::RestApi") (some pid) region =
      some (("https://" ++ region ++ ".console.aws.amazon.com")
        ++ "/apigateway/main/apis/" ++ pid ++ "/resources?api=" ++ pid
        ++ "&region=" ++ region))
    ∧ (∀ t : String, t ∉ resourceTypeAllowList →
        constructResourceURL (some t) (some pid) region = none)
    ∧ (constructResourceURL (some "AWS::Logs::LogGroup") (some "/aws/lambda/my-fn")
        "us-east-1" = some logGroupExampleUrl)
    ∧ ("$252Faws$252Flambda$252Fmy-fn".data <:+: logGroupExampleUrl.data)
    ∧ ¬ ("%2F".data <:+: logGroupExampleUrl.data) := by
  refine ⟨rfl, rfl, rfl, rfl, ?_, by decide, by decide, by decide⟩
  intro t ht
  simp only [resourceTypeAllowList, List.mem_cons, List.not_mem_nil, or_false,
    not_or] at ht
  obtain ⟨h1, h2, h3, h4⟩ := ht
  simp [constructResourceURL, h1, h2, h3, h4]

/-- Witness for C1: instantiated at a concrete unsupported type and the
concrete log-group example. -/
theorem constructResourceURL_c1_witness :
    constructResourceURL (some "AWS::S3::Bucket") (some "/aws/lambda/my-fn")
      "us-east-1" = none :=
  (constructResourceURL_c1 "us-east-1" "/aws/lambda/my-fn").2.2.2.2.1
    "AWS::S3::Bucket" (by decide)

/-- C8: the resolver is total; a missing (undefined) resourceType or
physicalId is replaced by the literal token "unknown" rather than raising, and
the result is still either a URL or none.  A missing resourceType therefore
resolves to none (the token "unknown" is not a supported type), while a
missing physicalId with a supported type still yields a URL. -/
theorem constructResourceURL_c8 (rt pid : Option String) (region : String) :
    (constructResourceURL rt pid region =
      constructResourceURL (some (rt.getD "unknown")) (some (pid.getD "unknown")) region)
    ∧ (constructResourceURL none pid region = none)
    ∧ (∀ t : String, t ∈ resourceTypeAllowList →
        ∃ u : String, constructResourceURL (some t) none region = some u) := by
  refine ⟨by cases rt <;> cases pid <;> rfl, by cases pid <;> rfl, ?_⟩
  intro t ht
  simp only [resourceTypeAllowList, List.mem_cons, List.not_mem_nil, or_false] at ht
  rcases ht with rfl | rfl | rfl | rfl <;> exact ⟨_, rfl⟩

/-- Witness for C8: concrete evaluation with both fields missing, and with a
supported type but a missing physicalId. -/
theorem constructResourceURL_c8_witness :
    (constructResourceURL none none "us-east-1" = none)
    ∧ (∃ u : String,
        constructResourceURL (some "AWS::Lambda::Function") none "us-east-1" = some u) :=
  ⟨(constructResourceURL_c8 none none "us-east-1").2.1,
    (constructResourceURL_c8 (some "AWS::Lambda::Function") none "us-east-1").2.2
      "AWS::Lambda::Function" (by decide)⟩

/-- The filter predicate of openResource:
resourceTypeAllowList.includes(resource.ResourceType!).  An undefined
ResourceType is not an element of a list of strings, so it tests false. -/
def allowListed (r : StackResourceSummary) : Bool :=
  match r.ResourceType with
  | some t => resourceTypeAllowList.contains t
  | none => false

/-- Ordinal (lexicographic, by code unit) comparison of two strings given as
character lists, as JS < performs on strings. -/
def charListLt : List Char → List Char → Bool
  | _, [] => false
  | [], _ :: _ => true
  | c :: cs, d :: ds =>
    if c < d then true else if d < c then false else charListLt cs ds

/-- Ordinal at-most: x is not strictly after y. -/
def charListLe (x y : List Char) : Bool := !(charListLt y x)

/-- JS < applied to the two (possibly undefined) ResourceType values: any
comparison against undefined is false; comparison of strings is ordinal
lexicographic order. -/
def jsStrLt (a b : Option String) : Bool :=
  match a, b with
  | some x, some y => charListLt x.data y.data
  | _, _ => false

/-- The sort comparator of openResource, verbatim: -1 when a.ResourceType <
b.ResourceType, 1 when a.ResourceType > b.ResourceType, otherwise 0.  It reads
only the ResourceType fields. -/
def jsCompare (a b : StackResourceSummary) : Int :=
  if jsStrLt a.ResourceType b.ResourceType then -1
  else if jsStrLt b.ResourceType a.ResourceType then 1
  else 0

/-- The pair (a, b) may stand in this order under the comparator (comparator
value at most 0).  Array.prototype.sort is required to be stable, and for a
consistent comparator its output is the unique stable order whose adjacent
pairs all satisfy this relation. -/
def sortRel (a b : StackResourceSummary) : Prop := jsCompare a b ≤ 0

instance : DecidableRel sortRel := fun a b => Int.decLe (jsCompare a b) 0

/-- The filter-and-sort step at the top of openResource.  JS's stable
Array.prototype.sort is modelled by the stable List.insertionSort. -/
def filterAndSort (resources : List StackResourceSummary) : List StackResourceSummary :=
  List.insertionSort sortRel (resources.filter allowListed)

/-- The ResourceType under the same defaulting the resolver applies to an
undefined field. -/
def typeKey (r : StackResourceSummary) : String := r.ResourceType.getD "unknown"

theorem charListLt_irrefl (x : List Char) : charListLt x x = false := by
  induction x with
  | nil => rfl
  | cons c cs ih => simp [charListLt, lt_irrefl, ih]

theorem charListLt_asymm :
    ∀ x y : List Char, charListLt x y = true → charListLt y x = false
  | x, [] => by intro h; cases x <;> simp [charListLt] at h
  | [], _ :: _ => by intro _; rfl
  | c :: cs, d :: ds => by
    intro h
    simp only [charListLt] at h ⊢
    by_cases hcd : c < d
    · simp [hcd, lt_asymm hcd]
    · by_cases hdc : d < c
      · simp [hcd, hdc] at h
      · simpa [hcd, hdc] using charListLt_asymm cs ds (by simpa [hcd, hdc] using h)

theorem charListLt_trans :
    ∀ x y z : List Char, charListLt x y = true → charListLt y z = true →
      charListLt x z = true
  | _, y, [] => by intro _ h; cases y <;> simp [charListLt] at h
  | [], _, _ :: _ => by intro _ _; rfl
  | c :: cs, y, e :: es => by
    intro h1 h2
    match y with
    | [] => simp [charListLt] at h1
    | d :: ds =>
      simp only [charListLt] at h1 h2 ⊢
      by_cases hcd : c < d
      · by_cases hde : d < e
        · simp [lt_trans hcd hde]
        · by_cases hed : e < d
          · simp [hcd, hde, hed] at h2
          · have : d = e := le_antisymm (not_lt.mp hed) (not_lt.mp hde)
            simp [this ▸ hcd]
      · by_cases hdc : d < c
        · simp [hcd, hdc] at h1
        · have hce : c = d := le_antisymm (not_lt.mp hdc) (not_lt.mp hcd)
          subst hce
          by_cases hde : c < e
          · simp [hde]
          · by_cases hed : e < c
            · simp [hde, hed] at h2
            · simpa [hde, hed] using charListLt_trans cs ds es
                (by simpa [lt_irrefl] using h1) (by simpa [hde, hed] using h2)

theorem charListLt_conn :
    ∀ x y : List Char, charListLt x y = false → charListLt y x = false → x = y
  | [], [] => by intro _ _; rfl
  | [], _ :: _ => by intro h _; simp [charListLt] at h
  | _ :: _, [] => by intro _ h; simp [charListLt] at h
  | c :: cs, d :: ds => by
    intro h1 h2
    simp only [charListLt] at h1 h2
    by_cases hcd : c < d
    · simp [hcd] at h1
    · by_cases hdc : d < c
      · simp [hcd, hdc] at h2
      · have hce : c = d := le_antisymm (not_lt.mp hdc) (not_lt.mp hcd)
        subst hce
        rw [charListLt_conn cs ds (by simpa [lt_irrefl] using h1)
          (by simpa [lt_irrefl] using h2)]

/-- Comparison of resources by ResourceType alone, as a genuine total
preorder; on allow-listed resources it coincides with sortRel. -/
def keyRel (a b : StackResourceSummary) : Prop :=
  charListLe (typeKey a).data (typeKey b).data = true

instance : DecidableRel keyRel :=
  fun a b => inferInstanceAs
    (Decidable (charListLe (typeKey a).data (typeKey b).data = true))

instance : IsTotal StackResourceSummary keyRel := by
  constructor
  intro a b
  unfold keyRel charListLe
  cases h : charListLt (typeKey b).data (typeKey a).data
  · left; simp
  · right; simp [charListLt_asymm _ _ h]

instance : IsTrans StackResourceSummary keyRel := by
  constructor
  intro a b c hab hbc
  unfold keyRel charListLe at *
  rw [Bool.not_eq_true'] at hab hbc ⊢
  cases hbc2 : charListLt (typeKey b).data (typeKey c).data
  · have heq := charListLt_conn _ _ hbc2 hbc
    rw [← heq]
    exact hab
  · cases hca : charListLt (typeKey c).data (typeKey a).data
    · rfl
    · exact absurd (charListLt_trans _ _ _ hbc2 hca) (by simp [hab])

theorem allowListed_resourceType {r : StackResourceSummary}
    (h : allowListed r = true) : r.ResourceType = some (typeKey r) := by
  unfold allowListed at h
  cases hr : r.ResourceType with
  | none => rw [hr] at h; cases h
  | some t => simp [typeKey, hr]

theorem allowListed_mem {r : StackResourceSummary} (h : allowListed r = true) :
    typeKey r ∈ resourceTypeAllowList := by
  unfold allowListed at h
  cases hr : r.ResourceType with
  | none => rw [hr] at h; cases h
  | some t =>
    rw [hr] at h
    simp only [typeKey, hr, Option.getD_some]
    simpa using h

theorem sortRel_iff_keyRel {a b : StackResourceSummary}
    (ha : allowListed a = true) (hb : allowListed b = true) :
    sortRel a b ↔ keyRel a b := by
  unfold sortRel keyRel jsCompare charListLe
  rw [allowListed_resourceType ha, allowListed_resourceType hb]
  show (if charListLt (typeKey a).data (typeKey b).data then (-1 : Int)
    else if charListLt (typeKey b).data (typeKey a).data then 1 else 0) ≤ 0 ↔ _
  cases h1 : charListLt (typeKey a).data (typeKey b).data
  · cases h2 : charListLt (typeKey b).data (typeKey a).data <;> simp [h2]
  · simp [charListLt_asymm _ _ h1]

theorem orderedInsert_congr {α : Type} (r s : α → α → Prop)
    [DecidableRel r] [DecidableRel s] (a : α) (l : List α)
    (h : ∀ b ∈ l, r a b ↔ s a b) :
    List.orderedInsert r a l = List.orderedInsert s a l := by
  induction l with
  | nil => rfl
  | cons b t ih =>
    simp only [List.orderedInsert]
    by_cases hb : r a b
    · rw [if_pos hb, if_pos ((h b (by simp)).1 hb)]
    · rw [if_neg hb, if_neg (fun hs => hb ((h b (by simp)).2 hs)),
        ih (fun x hx => h x (by simp [hx]))]

theorem insertionSort_congr {α : Type} (r s : α → α → Prop)
    [DecidableRel r] [DecidableRel s] (l : List α)
    (h : ∀ a ∈ l, ∀ b ∈ l, r a b ↔ s a b) :
    List.insertionSort r l = List.insertionSort s l := by
  induction l with
  | nil => rfl
  | cons a t ih =>
    simp only [List.insertionSort]
    rw [ih (fun x hx y hy => h x (by simp [hx]) y (by simp [hy]))]
    exact orderedInsert_congr r s a _ (fun b hb => h a (by simp) b
      (by simp [(List.perm_insertionSort s t).subset hb]))

theorem filterAndSort_eq_keySort (resources : List StackResourceSummary) :
    filterAndSort resources
      = List.insertionSort keyRel (resources.filter allowListed) := by
  unfold filterAndSort
  exact insertionSort_congr sortRel keyRel _ (fun a ha b hb =>
    sortRel_iff_keyRel (List.of_mem_filter ha) (List.of_mem_filter hb))

theorem filterAndSort_perm (resources : List StackResourceSummary) :
    (filterAndSort resources).Perm (resources.filter allowListed) :=
  List.perm_insertionSort sortRel _

theorem mem_filterAndSort_allowListed {resources : List StackResourceSummary}
    {r : StackResourceSummary} (h : r ∈ filterAndSort resources) :
    allowListed r = true :=
  List.of_mem_filter ((filterAndSort_perm resources).subset h)

theorem filter_type_orderedInsert (t : String) (a : StackResourceSummary)
    (l : List StackResourceSummary) :
    (List.orderedInsert keyRel a l).filter (fun x => decide (typeKey x = t))
      = if typeKey a = t then a :: l.filter (fun x => decide (typeKey x = t))
        else l.filter (fun x => decide (typeKey x = t)) := by
  induction l with
  | nil => by_cases h : typeKey a = t <;> simp [List.orderedInsert, List.filter, h]
  | cons b l ih =>
    simp only [List.orderedInsert]
    by_cases hab : keyRel a b
    · by_cases ha : typeKey a = t <;> simp [List.filter_cons, hab, ha]
    · have hba : charListLt (typeKey b).data (typeKey a).data = true := by
        simpa [keyRel, charListLe] using hab
      by_cases ha : typeKey a = t
      · have hb : ¬ typeKey b = t := by
          intro hbt
          rw [show (typeKey b).data = (typeKey a).data from by rw [hbt, ha],
            charListLt_irrefl] at hba
          cases hba
        simp [List.filter_cons, hab, ha, hb, ih]
      · simp only [if_neg hab, List.filter_cons, ih, if_neg ha]

theorem filter_type_insertionSort (t : String) (l : List StackResourceSummary) :
    (List.insertionSort keyRel l).filter (fun x => decide (typeKey x = t))
      = l.filter (fun x => decide (typeKey x = t)) := by
  induction l with
  | nil => rfl
  | cons a l ih =>
    simp only [List.insertionSort]
    rw [filter_type_orderedInsert, ih]
    by_cases h : typeKey a = t <;> simp [List.filter_cons, h]

theorem filterAndSort_filter_type (resources : List StackResourceSummary) (t : String) :
    (filterAndSort resources).filter (fun r => decide (r.ResourceType = some t))
      = (resources.filter allowListed).filter (fun r => decide (r.ResourceType = some t)) := by
  have hpred : ∀ l : List StackResourceSummary, (∀ x ∈ l, allowListed x = true) →
      l.filter (fun r => decide (r.ResourceType = some t))
        = l.filter (fun x => decide (typeKey x = t)) := by
    intro l hl
    apply List.filter_congr
    intro x hx
    rw [allowListed_resourceType (hl x hx)]
    by_cases h : typeKey x = t <;> simp [h]
  rw [hpred _ (fun x hx => mem_filterAndSort_allowListed hx),
    hpred _ (fun x hx => List.of_mem_filter hx),
    filterAndSort_eq_keySort, filter_type_insertionSort]

/-- Spec-side order for C2, following the spec's words: resource type
ascending, ties between equal types broken by logical id ascending. -/
def specTypeThenLogicalLe (a b : StackResourceSummary) : Bool :=
  charListLt (typeKey a).data (typeKey b).data
    || (decide (typeKey a = typeKey b)
        && charListLe (a.LogicalResourceId.getD "").data (b.LogicalResourceId.getD "").data)

/-- C2 counterexample: two allow-listed resources of the same type arrive with
logical ids "b" then "a".  The comparator returns 0 on equal types, so the
stable sort keeps the arrival order [b-resource, a-resource]; the adjacent
output pair violates the claimed type-then-logicalId order. -/
theorem filterAndSort_c2_counterexample :
    filterAndSort
        [ ⟨some "AWS::Lambda::Function", some "b", some "pb"⟩
        , ⟨some "AWS::Lambda::Function", some "a", some "pa"⟩ ]
      = [ ⟨some "AWS::Lambda::Function", some "b", some "pb"⟩
        , ⟨some "AWS::Lambda::Function", some "a", some "pa"⟩ ]
    ∧ specTypeThenLogicalLe
        ⟨some "AWS::Lambda::Function", some "b", some "pb"⟩
        ⟨some "AWS::Lambda::Function", some "a", some "pa"⟩ = false := by
  exact ⟨by decide, by decide⟩

/-- C2 amended: filterAndSort keeps exactly the input resources whose type is
in the allow list, in an order that is ascending by resource type (ordinal
comparison); ties between equal types keep their original relative arrival
order (the comparator returns 0 and the sort is stable) rather than being
broken by logical id; the function is pure and idempotent. -/
theorem filterAndSort_c2_amended (resources : List StackResourceSummary) :
    (filterAndSort resources).Perm (resources.filter allowListed)
    ∧ (∀ r ∈ filterAndSort resources, allowListed r = true)
    ∧ List.Pairwise keyRel (filterAndSort resources)
    ∧ (∀ t : String,
        (filterAndSort resources).filter (fun r => decide (r.ResourceType = some t))
          = (resources.filter allowListed).filter (fun r => decide (r.ResourceType = some t)))
    ∧ filterAndSort (filterAndSort resources) = filterAndSort resources := by
  have hmem : ∀ r ∈ filterAndSort resources, allowListed r = true :=
    fun r hr => mem_filterAndSort_allowListed hr
  have hsorted : List.Pairwise keyRel (filterAndSort resources) := by
    rw [filterAndSort_eq_keySort]
    exact List.sorted_insertionSort keyRel _
  refine ⟨filterAndSort_perm resources, hmem, hsorted,
    fun t => filterAndSort_filter_type resources t, ?_⟩
  have hsorted' : List.Pairwise sortRel (filterAndSort resources) :=
    hsorted.imp_of_mem (fun ha hb h =>
      (sortRel_iff_keyRel (hmem _ ha) (hmem _ hb)).mpr h)
  have hfilter : (filterAndSort resources).filter allowListed = filterAndSort resources :=
    List.filter_eq_self.mpr hmem
  show List.insertionSort sortRel ((filterAndSort resources).filter allowListed)
    = filterAndSort resources
  rw [hfilter]
  exact List.Sorted.insertionSort_eq hsorted'

/-- Sample resources used to instantiate the universally quantified claim
theorems at concrete inputs. -/
def demoResources : List StackResourceSummary :=
  [ ⟨some "AWS::Logs::LogGroup", some "logs", some "/aws/lambda/my-fn"⟩
  , ⟨some "AWS::CloudFormation::Stack", some "nested", some "arn"⟩
  , ⟨some "AWS::Lambda::Function", some "fnB", some "my-fn-b"⟩
  , ⟨some "AWS::Lambda::Function", some "fnA", some "my-fn-a"⟩ ]

/-- Witness for C2 amended: concrete idempotence and a concrete member of the
output being allow-listed. -/
theorem filterAndSort_c2_amended_witness :
    (filterAndSort (filterAndSort demoResources) = filterAndSort demoResources)
    ∧ allowListed ⟨some "AWS::Logs::LogGroup", some "logs", some "/aws/lambda/my-fn"⟩ = true :=
  ⟨(filterAndSort_c2_amended demoResources).2.2.2.2,
    (filterAndSort_c2_amended demoResources).2.1
      ⟨some "AWS::Logs::LogGroup", some "logs", some "/aws/lambda/my-fn"⟩ (by decide)⟩

/-- C10: the comparator reads only the ResourceType fields and returns 0 on
equal types, so under the stable sort two same-type resources keep their
original relative arrival order in the picker list (stated as: for every type,
filtering the sorted list by that type gives exactly the arrival-ordered
filtered input); no logical id takes part in the ordering. -/
theorem comparator_ties_c10 (resources : List StackResourceSummary) (t : String)
    (a b : StackResourceSummary) :
    (a.ResourceType = b.ResourceType → jsCompare a b = 0)
    ∧ (∀ a' b' : StackResourceSummary, a.ResourceType = a'.ResourceType →
        b.ResourceType = b'.ResourceType → jsCompare a b = jsCompare a' b')
    ∧ ((filterAndSort resources).filter (fun r => decide (r.ResourceType = some t))
        = (resources.filter allowListed).filter (fun r => decide (r.ResourceType = some t))) := by
  refine ⟨?_, ?_, filterAndSort_filter_type resources t⟩
  · intro h
    unfold jsCompare
    have hlt : jsStrLt a.ResourceType b.ResourceType = false := by
      rw [h]; unfold jsStrLt; cases b.ResourceType <;> simp [charListLt_irrefl]
    have hlt' : jsStrLt b.ResourceType a.ResourceType = false := by
      rw [h]; unfold jsStrLt; cases b.ResourceType <;> simp [charListLt_irrefl]
    rw [hlt, hlt']; rfl
  · intro a' b' ha hb
    unfold jsCompare
    rw [ha, hb]

/-- Witness for C10: the comparator at two concrete same-type resources, and
the stability equation at a concrete input list and type. -/
theorem comparator_ties_c10_witness :
    jsCompare ⟨some "AWS::Lambda::Function", some "fnB", some "my-fn-b"⟩
        ⟨some "AWS::Lambda::Function", some "fnA", some "my-fn-a"⟩ = 0
    ∧ ((filterAndSort demoResources).filter
          (fun r => decide (r.ResourceType = some "AWS::Lambda::Function"))
        = (demoResources.filter allowListed).filter
          (fun r => decide (r.ResourceType = some "AWS::Lambda::Function"))) :=
  ⟨(comparator_ties_c10 demoResources "AWS::Lambda::Function"
      ⟨some "AWS::Lambda::Function", some "fnB", some "my-fn-b"⟩
      ⟨some "AWS::Lambda::Function", some "fnA", some "my-fn-a"⟩).1 rfl,
    (comparator_ties_c10 demoResources "AWS::Lambda::Function"
      ⟨some "AWS::Lambda::Function", some "fnB", some "my-fn-b"⟩
      ⟨some "AWS::Lambda::Function", some "fnA", some "my-fn-a"⟩).2.2⟩

/-- Ephemeral projection handed to the prompt library: a display label and the
resolved URL (undefined when the resolver has no rule). -/
structure Choice where
  title : String
  value : Option String
deriving DecidableEq, Repr

/-- Embedding of the JS string (not regex) method s.replace(pat, sub), which
replaces only the first occurrence of pat. -/
def replaceFirstChars (pat sub : List Char) : List Char → List Char
  | [] => []
  | c :: cs =>
    if pat.isPrefixOf (c :: cs) then sub ++ (c :: cs).drop pat.length
    else c :: replaceFirstChars pat sub cs

/-- JS template interpolation of a possibly undefined string. -/
def jsInterpolate (o : Option String) : String := o.getD "undefined"

/-- The display label built in openResource:
a bracketed ResourceType with its first "AWS::" removed, then the logical id.
Optional chaining makes an undefined ResourceType interpolate as "undefined". -/
def choiceTitle (r : StackResourceSummary) : String :=
  "[" ++ (match r.ResourceType with
          | some t => String.mk (replaceFirstChars "AWS::".data "".data t.data)
          | none => "undefined")
      ++ "]: " ++ jsInterpolate r.LogicalResourceId

/-- The choice list openResource passes to the autocomplete prompt: one Choice
per filtered-and-sorted resource, whose value is the resolved URL. -/
def openResourceChoices (resources : List StackResourceSummary) (region : String) :
    List Choice :=
  (filterAndSort resources).map (fun r =>
    { title := choiceTitle r
      value := constructResourceURL r.ResourceType r.PhysicalResourceId region })

theorem constructResourceURL_defined_of_mem {t : String}
    (ht : t ∈ resourceTypeAllowList) (pid : Option String) (region : String) :
    ∃ u : String, constructResourceURL (some t) pid region = some u := by
  simp only [resourceTypeAllowList, List.mem_cons, List.not_mem_nil, or_false] at ht
  rcases ht with rfl | rfl | rfl | rfl <;> cases pid <;> exact ⟨_, rfl⟩

/-- C9: the allow list coincides with the set of types the resolver supports,
so every resource that survives the filter resolves to a defined URL, and
every Choice the picker presents has a defined url value. -/
theorem choices_url_defined_c9 (resources : List StackResourceSummary)
    (region : String) :
    (∀ r ∈ filterAndSort resources,
      ∃ u : String, constructResourceURL r.ResourceType r.PhysicalResourceId region = some u)
    ∧ (∀ c ∈ openResourceChoices resources region, ∃ u : String, c.value = some u) := by
  have hr : ∀ r ∈ filterAndSort resources,
      ∃ u : String, constructResourceURL r.ResourceType r.PhysicalResourceId region = some u := by
    intro r hmem
    have hal := mem_filterAndSort_allowListed hmem
    rw [allowListed_resourceType hal]
    exact constructResourceURL_defined_of_mem (allowListed_mem hal) _ region
  refine ⟨hr, ?_⟩
  intro c hc
  simp only [openResourceChoices, List.mem_map] at hc
  obtain ⟨r, hmem, rfl⟩ := hc
  exact hr r hmem

/-- Witness for C9: a concrete choice produced from the demo resources has a
defined URL. -/
theorem choices_url_defined_c9_witness :
    ∃ u : String,
      (Choice.mk "[Logs::LogGroup]: logs"
        (some "https://ap-southeast-2.console.aws.amazon.com/cloudwatch/home?region=ap-southeast-2#logsV2:log-groups/log-group/$252Faws$252Flambda$252Fmy-fn")).value
        = some u :=
  (choices_url_defined_c9 demoResources "ap-southeast-2").2
    (Choice.mk "[Logs::LogGroup]: logs"
      (some "https://ap-southeast-2.console.aws.amazon.com/cloudwatch/home?region=ap-southeast-2#logsV2:log-groups/log-group/$252Faws$252Flambda$252Fmy-fn"))
    (by decide)

/-- A network request issued to the CloudFormation API: the single
DescribeStacks call, or a resource-listing drain for one stack (the paginator
issues its continuation requests inside one drain). -/
inductive NetCall
  | describeStacks
  | listResources (stackName : String)
deriving DecidableEq, Repr

/-- How a run of findStacksByMatch ends: a process exit with the given code,
or the hand-off to the interactive resource picker openResource with the
aggregated resource list. -/
inductive Outcome
  | exited (code : Nat)
  | navigate (resources : List StackResourceSummary) (region : String)
deriving DecidableEq, Repr

/-- The external collaborators of one run, fixed for that run:
the DescribeStacks reply (error message, or the possibly-undefined Stacks
field), the regex compiler applied to the user pattern (none when the pattern
does not compile; otherwise the compiled case-insensitive test), the paginated
resource listing per stack name (error, or the list of pages in cursor order),
and the multiselect prompt reply (none when the user cancels; otherwise the
selection as a Boolean mask over the offered choices, in choice order, which
is how the prompt library reports a multiselect). -/
structure Env where
  describeResult : Except String (Option (List Stack))
  compileRegex : String → Option (String → Bool)
  pages : String → Except String (List (List StackResourceSummary))
  multiselect : List Stack → Option (List Bool)

/-- JS truthiness of a possibly undefined string: false for undefined and for
the empty string. -/
def jsTruthy : Option String → Bool
  | none => false
  | some s => !(s = "")

/-- The matching step of findStacksByMatch: keep the stacks whose StackName is
truthy and passes the compiled case-insensitive regex test. -/
def matchStacks (test : String → Bool) (stackList : List Stack) : List Stack :=
  stackList.filter (fun s => jsTruthy s.StackName && test (s.StackName.getD ""))

/-- Selection of a sublist by a Boolean mask, position by position; positions
beyond the mask are unselected.  This is the shape of a multiselect reply:
the selected choice values in their original choice order. -/
def maskFilter : List α → List Bool → List α
  | [], _ => []
  | _ :: _, [] => []
  | a :: as, b :: bs => if b then a :: maskFilter as bs else maskFilter as bs

/-- The cardinality guard of findStacksByMatch: 8 or fewer matching stacks
pass through unchanged; more than 8 raise the multiselect prompt, whose reply
(or cancellation, none) determines the working set. -/
def guardStacks (env : Env) (matchingStacks : List Stack) : Option (List Stack) :=
  if matchingStacks.length > 8 then
    match env.multiselect matchingStacks with
    | none => none
    | some mask => some (maskFilter matchingStacks mask)
  else some matchingStacks

/-- The paginator loop body of listStackResources: each page's summaries are
pushed onto the accumulator in page-arrival order. -/
def drainPages (pages : List (List StackResourceSummary))
    (acc : List StackResourceSummary) : List StackResourceSummary :=
  match pages with
  | [] => acc
  | page :: rest => drainPages rest (acc ++ page)

/-- Embedding of listStackResources: one drain of the paginated listing for a
stack.  A listing failure hits the catch block, which calls process.exit(1);
this surfaces as an error carrying that exit code. -/
def listStackResources (env : Env) (stackName : String) :
    List NetCall × Except Nat (List StackResourceSummary) :=
  match env.pages stackName with
  | .ok pages => ([NetCall.listResources stackName], .ok (drainPages pages []))
  | .error _ => ([NetCall.listResources stackName], .error 1)

/-- The flattening reduce over the per-stack responses.  In the source the
accumulator skips a falsy response, but every drain either returns an array or
has already exited the process, so the fold concatenates throughout. -/
def flattenResponses (responses : List (List StackResourceSummary)) :
    List StackResourceSummary :=
  responses.foldl (fun acc val => acc ++ val) []

def exceptIsErr : Except ε α → Bool
  | .error _ => true
  | .ok _ => false

/-- The aggregation tail of findStacksByMatch: start one drain per working-set
stack (Promise.all issues them concurrently, so every drain's requests appear
in the trace), exit 1 if any drain failed, exit 0 (a plain process.exit) when
the flattened resource list is empty, and otherwise hand the flattened list to
openResource. -/
def aggregateAndNavigate (env : Env) (working : List Stack) (region : String) :
    List NetCall × Outcome :=
  let drains := working.map (fun s => listStackResources env (s.StackName.getD ""))
  let trace := (drains.map Prod.fst).flatten
  if drains.any (fun d => exceptIsErr d.2) then (trace, .exited 1)
  else
    let flattenedResources := flattenResponses (drains.filterMap (fun d => d.2.toOption))
    if flattenedResources = [] then (trace, .exited 0)
    else (trace, .navigate flattenedResources region)

/-- The continuation of findStacksByMatch after the regex has compiled: filter
the stacks, exit 0 (plain process.exit) when nothing matches, run the
cardinality guard (cancellation inside the prompt exits 0), then aggregate. -/
def afterCompile (env : Env) (test : String → Bool) (stackList : List Stack)
    (region : String) : List NetCall × Outcome :=
  let matchingStacks := matchStacks test stackList
  if matchingStacks = [] then ([], .exited 0)
  else
    match guardStacks env matchingStacks with
    | none => ([], .exited 0)
    | some working => aggregateAndNavigate env working region

/-- Embedding of findStacksByMatch.  The DescribeStacks request is sent first;
its rejection handler exits 1.  An undefined or empty Stacks field exits via a
plain process.exit, code 0.  Only then is new RegExp(match, "i") constructed;
a pattern that does not compile throws, reaches the surrounding catch, and
exits 1.  The trace records the network requests in issue order. -/
def findStacksByMatch (env : Env) (pattern : String) (region : String) :
    List NetCall × Outcome :=
  match env.describeResult with
  | .error _ => ([NetCall.describeStacks], .exited 1)
  | .ok none => ([NetCall.describeStacks], .exited 0)
  | .ok (some stackList) =>
    if stackList = [] then ([NetCall.describeStacks], .exited 0)
    else
      match env.compileRegex pattern with
      | none => ([NetCall.describeStacks], .exited 1)
      | some test =>
        let (tr, out) := afterCompile env test stackList region
        (NetCall.describeStacks :: tr, out)

/-- Model of the external JS regex engine restricted to literal patterns (no
metacharacters): the test of new RegExp(pattern, "i") on a string holds
exactly when the case-folded pattern occurs as a contiguous substring anywhere
in the case-folded string. -/
def ciContains (s pattern : String) : Bool :=
  decide ((pattern.data.map Char.toLower) <:+: (s.data.map Char.toLower))

/-- C7: stack matching is case-insensitive and unanchored.  With the regex
engine modelled on literal patterns as case-folded substring containment, the
matcher retains exactly the stacks (with well-formed, non-empty names, as the
data model guarantees) whose name contains the pattern anywhere, it returns
the empty list rather than erroring when nothing matches, and the pattern
"feature-42" retains a stack named "Feature-42-backend". -/
theorem matchStacks_c7 (stackList : List Stack) (pattern : String)
    (hnames : ∀ s ∈ stackList, jsTruthy s.StackName = true) :
    (∀ s : Stack, s ∈ matchStacks (fun n => ciContains n pattern) stackList ↔
      s ∈ stackList ∧
        ((pattern.data.map Char.toLower) <:+: ((s.StackName.getD "").data.map Char.toLower)))
    ∧ ((∀ s ∈ stackList, ciContains (s.StackName.getD "") pattern = false) →
        matchStacks (fun n => ciContains n pattern) stackList = [])
    ∧ (matchStacks (fun n => ciContains n "feature-42")
        [⟨some "Feature-42-backend"⟩] = [⟨some "Feature-42-backend"⟩]) := by
  refine ⟨?_, ?_, by decide⟩
  · intro s
    simp only [matchStacks, List.mem_filter, Bool.and_eq_true]
    constructor
    · rintro ⟨hs, -, htest⟩
      exact ⟨hs, by simpa [ciContains] using htest⟩
    · rintro ⟨hs, hinf⟩
      exact ⟨hs, hnames s hs, by simpa [ciContains] using hinf⟩
  · intro hnone
    unfold matchStacks
    rw [List.filter_eq_nil_iff]
    intro s hs
    simp [hnone s hs]

/-- Witness for C7: the concrete case-insensitive example, via the general
retention statement. -/
theorem matchStacks_c7_witness :
    Stack.mk (some "Feature-42-backend") ∈
      matchStacks (fun n => ciContains n "feature-42")
        [⟨some "Feature-42-backend"⟩, ⟨some "other-stack"⟩] :=
  ((matchStacks_c7 [⟨some "Feature-42-backend"⟩, ⟨some "other-stack"⟩]
      "feature-42" (by decide)).1 ⟨some "Feature-42-backend"⟩).mpr
    ⟨by decide, by decide⟩

theorem maskFilter_sublist : ∀ (l : List α) (m : List Bool),
    (maskFilter l m).Sublist l
  | [], _ => by simp [maskFilter]
  | _ :: _, [] => by simp [maskFilter]
  | a :: as, b :: bs => by
    cases b
    · simpa [maskFilter] using (maskFilter_sublist as bs).cons a
    · simpa [maskFilter] using (maskFilter_sublist as bs).cons₂ a

/-- C5: the cardinality guard returns 8 or fewer matched stacks unchanged;
with more than 8 it prompts a multiselect over all matched stacks and the
working set is exactly the mask-selected subset, a sublist of the matched
stacks in their original relative order; a cancelled prompt exits; and an
empty working set flows downstream into the "no resources found" exit (a
plain process.exit, code 0), not an error. -/
theorem guardStacks_c5 (env : Env) (matched : List Stack) :
    (matched.length ≤ 8 → guardStacks env matched = some matched)
    ∧ (∀ mask : List Bool, matched.length > 8 →
        env.multiselect matched = some mask →
        guardStacks env matched = some (maskFilter matched mask)
        ∧ (maskFilter matched mask).Sublist matched)
    ∧ (matched.length > 8 → env.multiselect matched = none →
        guardStacks env matched = none)
    ∧ (∀ region : String, aggregateAndNavigate env [] region = ([], Outcome.exited 0)) := by
  refine ⟨?_, ?_, ?_, ?_⟩
  · intro hle
    unfold guardStacks
    rw [if_neg (by omega)]
  · intro mask hgt hsel
    refine ⟨?_, maskFilter_sublist matched mask⟩
    unfold guardStacks
    rw [if_pos hgt, hsel]
  · intro hgt hsel
    unfold guardStacks
    rw [if_pos hgt, hsel]
  · intro region
    simp [aggregateAndNavigate, flattenResponses]

/-- Nine matched stacks for the guard example. -/
def nineStacks : List Stack :=
  [⟨some "s1"⟩, ⟨some "s2"⟩, ⟨some "s3"⟩, ⟨some "s4"⟩, ⟨some "s5"⟩,
   ⟨some "s6"⟩, ⟨some "s7"⟩, ⟨some "s8"⟩, ⟨some "s9"⟩]

/-- A selection of 3 of the 9 offered choices. -/
def pickMask : List Bool :=
  [false, true, false, false, true, false, false, false, true]

/-- An environment whose multiselect prompt answers with pickMask. -/
def envPick3 : Env :=
  { describeResult := Except.ok (some nineStacks)
  , compileRegex := fun _ => some (fun _ => true)
  , pages := fun _ => Except.ok []
  , multiselect := fun _ => some pickMask }

/-- Witness for C5: of 9 matched stacks the user selects 3, and the working
set is exactly those 3 in their original relative order. -/
theorem guardStacks_c5_witness :
    guardStacks envPick3 nineStacks = some [⟨some "s2"⟩, ⟨some "s5"⟩, ⟨some "s9"⟩]
    ∧ (maskFilter nineStacks pickMask).Sublist nineStacks := by
  have h := (guardStacks_c5 envPick3 nineStacks).2.1 pickMask (by decide) rfl
  exact ⟨by rw [h.1]; decide, h.2⟩

theorem drainPages_eq_flatten :
    ∀ (pages : List (List StackResourceSummary)) (acc : List StackResourceSummary),
      drainPages pages acc = acc ++ pages.flatten
  | [], acc => by simp [drainPages]
  | page :: rest, acc => by
    simp [drainPages, drainPages_eq_flatten rest (acc ++ page), List.append_assoc]

theorem ok_drains_eq (env : Env) (working : List Stack)
    (pagesOf : Stack → List (List StackResourceSummary))
    (hok : ∀ s ∈ working, env.pages (s.StackName.getD "") = Except.ok (pagesOf s)) :
    working.map (fun s => listStackResources env (s.StackName.getD ""))
      = working.map (fun s => ([NetCall.listResources (s.StackName.getD "")],
          (Except.ok ((pagesOf s).flatten) : Except Nat (List StackResourceSummary)))) := by
  induction working with
  | nil => rfl
  | cons s rest ih =>
    simp only [List.map_cons]
    rw [ih (fun x hx => hok x (by simp [hx]))]
    have hs := hok s (by simp)
    simp [listStackResources, hs, drainPages_eq_flatten]

theorem ok_drains_any_false {β : Type} (l : List Stack) (f : Stack → β)
    (v : Stack → List StackResourceSummary) :
    (l.map (fun s => (f s, (Except.ok (v s) : Except Nat (List StackResourceSummary))))).any
      (fun d => exceptIsErr d.2) = false := by
  induction l <;> simp [exceptIsErr, *]

theorem toOption_ok {ε γ : Type} (a : γ) :
    (Except.ok a : Except ε γ).toOption = some a := rfl

theorem ok_drains_values {β : Type} (l : List Stack) (f : Stack → β)
    (v : Stack → List StackResourceSummary) :
    (l.map (fun s => (f s, (Except.ok (v s) : Except Nat (List StackResourceSummary))))).filterMap
      (fun d => d.2.toOption) = l.map v := by
  induction l with
  | nil => rfl
  | cons a t ih =>
    simp only [List.map_cons, List.filterMap_cons, toOption_ok]
    rw [ih]

theorem flatten_map_singleton {β γ : Type} (f : β → γ) (l : List β) :
    (l.map (fun s => [f s])).flatten = l.map f := by
  induction l <;> simp [*]

theorem flattenResponses_eq_flatten (responses : List (List StackResourceSummary)) :
    flattenResponses responses = responses.flatten := by
  suffices h : ∀ acc, responses.foldl (fun acc val => acc ++ val) acc
      = acc ++ responses.flatten by
    simpa [flattenResponses] using h []
  induction responses with
  | nil => intro acc; simp
  | cons p ps ih => intro acc; simp [ih, List.append_assoc]

theorem aggregateAndNavigate_ok (env : Env) (working : List Stack) (region : String)
    (pagesOf : Stack → List (List StackResourceSummary))
    (hok : ∀ s ∈ working, env.pages (s.StackName.getD "") = Except.ok (pagesOf s)) :
    aggregateAndNavigate env working region
      = (working.map (fun s => NetCall.listResources (s.StackName.getD "")),
         if (working.map (fun s => (pagesOf s).flatten)).flatten = []
           then Outcome.exited 0
           else Outcome.navigate ((working.map (fun s => (pagesOf s).flatten)).flatten) region) := by
  simp only [aggregateAndNavigate]
  rw [ok_drains_eq env working pagesOf hok]
  rw [ok_drains_any_false, ok_drains_values, flattenResponses_eq_flatten]
  have htrace : ((working.map (fun s => ([NetCall.listResources (s.StackName.getD "")],
      (Except.ok ((pagesOf s).flatten) : Except Nat (List StackResourceSummary))))).map
        Prod.fst).flatten
      = working.map (fun s => NetCall.listResources (s.StackName.getD "")) := by
    clear hok
    induction working with
    | nil => rfl
    | cons s rest ih =>
      simp only [List.map_cons, List.flatten_cons, List.singleton_append, ih]
  rw [htrace]
  by_cases hemp : (working.map (fun s => (pagesOf s).flatten)).flatten = [] <;>
    simp [hemp]

/-- C6: with every drain succeeding, the aggregation issues one drain per
working-set stack in order, each drain accumulates its pages in page-arrival
(cursor) order, and the value handed to the picker is the concatenation of the
per-stack page-concatenations in working-set order (the empty concatenation
instead takes the no-resources exit).  Completion order of the concurrent
drains cannot influence this: Promise.all keys results by position. -/
theorem aggregate_c6 (env : Env) (working : List Stack) (region : String)
    (pagesOf : Stack → List (List StackResourceSummary))
    (hok : ∀ s ∈ working, env.pages (s.StackName.getD "") = Except.ok (pagesOf s)) :
    (∀ (pages : List (List StackResourceSummary)) (acc : List StackResourceSummary),
      drainPages pages acc = acc ++ pages.flatten)
    ∧ aggregateAndNavigate env working region
      = (working.map (fun s => NetCall.listResources (s.StackName.getD "")),
         if (working.map (fun s => (pagesOf s).flatten)).flatten = []
           then Outcome.exited 0
           else Outcome.navigate ((working.map (fun s => (pagesOf s).flatten)).flatten) region) :=
  ⟨drainPages_eq_flatten, aggregateAndNavigate_ok env working region pagesOf hok⟩

/-- Resources appearing on the pages of the aggregation example. -/
def pageItem (n : String) : StackResourceSummary :=
  ⟨some "AWS::Lambda::Function", some n, some n⟩

/-- An environment where stack A has two one-item pages and stack B a
three-page listing of 2, 2 and 1 items. -/
def envPages : Env :=
  { describeResult := Except.ok (some [⟨some "A"⟩, ⟨some "B"⟩])
  , compileRegex := fun _ => some (fun _ => true)
  , pages := fun n =>
      if n = "A" then Except.ok [[pageItem "a1"], [pageItem "a2"]]
      else Except.ok [[pageItem "b1", pageItem "b2"],
        [pageItem "b3", pageItem "b4"], [pageItem "b5"]]
  , multiselect := fun _ => none }

/-- Witness for C6: stack B's 3 pages of 2/2/1 items arrive as 5 items in page
order, concatenated after stack A's items. -/
theorem aggregate_c6_witness :
    aggregateAndNavigate envPages [⟨some "A"⟩, ⟨some "B"⟩] "r"
      = ([NetCall.listResources "A", NetCall.listResources "B"],
         Outcome.navigate
           [pageItem "a1", pageItem "a2", pageItem "b1", pageItem "b2",
            pageItem "b3", pageItem "b4", pageItem "b5"] "r") := by
  have h := (aggregate_c6 envPages [⟨some "A"⟩, ⟨some "B"⟩] "r"
    (fun s => if s.StackName = some "A" then [[pageItem "a1"], [pageItem "a2"]]
      else [[pageItem "b1", pageItem "b2"], [pageItem "b3", pageItem "b4"], [pageItem "b5"]])
    (by
      intro s hs
      simp only [List.mem_cons, List.not_mem_nil, or_false] at hs
      rcases hs with rfl | rfl <;> rfl)).2
  rw [h]
  decide

/-- An environment holding one stack, whose pattern fails to compile. -/
def envBadPattern : Env :=
  { describeResult := Except.ok (some [⟨some "demo-stack"⟩])
  , compileRegex := fun _ => none
  , pages := fun _ => Except.ok []
  , multiselect := fun _ => none }

/-- C3 counterexample: with an uncompilable pattern such as "(", the
DescribeStacks request has already been issued when compilation fails — the
source constructs new RegExp(match, "i") only after awaiting
client.send(DescribeStacksCommand).  The claim that no network call precedes
the failure is therefore false. -/
theorem findStacksByMatch_c3_counterexample :
    NetCall.describeStacks ∈ (findStacksByMatch envBadPattern "(" "ap-southeast-2").1
    ∧ findStacksByMatch envBadPattern "(" "ap-southeast-2"
        = ([NetCall.describeStacks], Outcome.exited 1) :=
  ⟨by decide, by decide⟩

/-- C3 amended: an uncompilable pattern makes the run fail with exit code 1
before any ListStackResources request is issued, but after the single
DescribeStacks request (which the source always sends first). -/
theorem findStacksByMatch_c3_amended (env : Env) (pattern region : String)
    (hcompile : env.compileRegex pattern = none) :
    (∀ n : String, NetCall.listResources n ∉ (findStacksByMatch env pattern region).1)
    ∧ (∀ stackList : List Stack, env.describeResult = Except.ok (some stackList) →
        stackList ≠ [] →
        findStacksByMatch env pattern region
          = ([NetCall.describeStacks], Outcome.exited 1)) := by
  constructor
  · intro n
    cases hds : env.describeResult with
    | error e => simp [findStacksByMatch, hds]
    | ok stacksOpt =>
      cases stacksOpt with
      | none => simp [findStacksByMatch, hds]
      | some sl =>
        by_cases hsl : sl = [] <;> simp [findStacksByMatch, hds, hsl, hcompile]
  · intro sl hds hne
    simp [findStacksByMatch, hds, hne, hcompile]

/-- Witness for C3 amended: the concrete bad-pattern environment. -/
theorem findStacksByMatch_c3_amended_witness :
    findStacksByMatch envBadPattern "(" "us-east-1"
      = ([NetCall.describeStacks], Outcome.exited 1) :=
  (findStacksByMatch_c3_amended envBadPattern "(" "us-east-1" rfl).2
    [⟨some "demo-stack"⟩] rfl (by decide)

/-- An environment that returns an empty stack list. -/
def envNoStacks : Env :=
  { describeResult := Except.ok (some [])
  , compileRegex := fun _ => some (fun _ => true)
  , pages := fun _ => Except.ok []
  , multiselect := fun _ => none }

/-- An environment whose resource listing fails for every stack. -/
def envPagesFail : Env :=
  { describeResult := Except.ok (some [⟨some "A"⟩])
  , compileRegex := fun _ => some (fun _ => true)
  , pages := fun _ => Except.error "boom"
  , multiselect := fun _ => none }

/-- C4 counterexample: when DescribeStacks returns zero stacks the source
calls process.exit() with no argument, which terminates with code 0, not the
claimed code 1. -/
theorem exitCodes_c4_counterexample :
    (findStacksByMatch envNoStacks "x" "r").2 = Outcome.exited 0
    ∧ (findStacksByMatch envNoStacks "x" "r").2 ≠ Outcome.exited 1 :=
  ⟨by decide, by decide⟩

/-- C4 amended: the process exits 0 on success and on explicit cancellation,
and also on every not-found condition (zero stacks overall, zero matching
stacks, zero resources across the working set — all plain process.exit calls);
it exits 1 on the failure conditions: DescribeStacks failure, an invalid
pattern, and a resource-listing failure. -/
theorem exitCodes_c4_amended (env : Env) (pattern region : String) :
    (∀ e : String, env.describeResult = Except.error e →
      findStacksByMatch env pattern region = ([NetCall.describeStacks], Outcome.exited 1))
    ∧ (env.describeResult = Except.ok none ∨ env.describeResult = Except.ok (some []) →
      findStacksByMatch env pattern region = ([NetCall.describeStacks], Outcome.exited 0))
    ∧ (∀ sl : List Stack, env.describeResult = Except.ok (some sl) → sl ≠ [] →
        env.compileRegex pattern = none →
        findStacksByMatch env pattern region = ([NetCall.describeStacks], Outcome.exited 1))
    ∧ (∀ (sl : List Stack) (test : String → Bool),
        env.describeResult = Except.ok (some sl) → sl ≠ [] →
        env.compileRegex pattern = some test → matchStacks test sl = [] →
        findStacksByMatch env pattern region = ([NetCall.describeStacks], Outcome.exited 0))
    ∧ (∀ (working : List Stack) (s : Stack) (e : String), s ∈ working →
        env.pages (s.StackName.getD "") = Except.error e →
        (aggregateAndNavigate env working region).2 = Outcome.exited 1)
    ∧ (∀ (working : List Stack) (pagesOf : Stack → List (List StackResourceSummary)),
        (∀ s ∈ working, env.pages (s.StackName.getD "") = Except.ok (pagesOf s)) →
        (working.map (fun s => (pagesOf s).flatten)).flatten = [] →
        (aggregateAndNavigate env working region).2 = Outcome.exited 0)
    ∧ (∀ (sl : List Stack) (test : String → Bool),
        env.describeResult = Except.ok (some sl) → sl ≠ [] →
        env.compileRegex pattern = some test →
        matchStacks test sl ≠ [] →
        env.multiselect (matchStacks test sl) = none →
        (matchStacks test sl).length > 8 →
        findStacksByMatch env pattern region
          = ([NetCall.describeStacks], Outcome.exited 0)) := by
  refine ⟨?_, ?_, ?_, ?_, ?_, ?_, ?_⟩
  · intro e hds
    simp [findStacksByMatch, hds]
  · rintro (hds | hds) <;> simp [findStacksByMatch, hds]
  · intro sl hds hne hcompile
    simp [findStacksByMatch, hds, hne, hcompile]
  · intro sl test hds hne hcompile hmatch
    simp [findStacksByMatch, hds, hne, hcompile, afterCompile, hmatch]
  · intro working s e hmem hpages
    have hdrain : listStackResources env (s.StackName.getD "")
        = ([NetCall.listResources (s.StackName.getD "")], Except.error 1) := by
      simp [listStackResources, hpages]
    have hany : (working.map (fun w => listStackResources env (w.StackName.getD ""))).any
        (fun d => exceptIsErr d.2) = true := by
      refine List.any_eq_true.mpr ?_
      exact ⟨listStackResources env (s.StackName.getD ""),
        List.mem_map_of_mem _ hmem, by rw [hdrain]; rfl⟩
    simp [aggregateAndNavigate, hany]
  · intro working pagesOf hok hempty
    rw [aggregateAndNavigate_ok env working region pagesOf hok, hempty]
    simp
  · intro sl test hds hne hcompile hmatch hsel hlen
    have hguard : guardStacks env (matchStacks test sl) = none := by
      unfold guardStacks
      rw [if_pos hlen, hsel]
    simp [findStacksByMatch, hds, hne, hcompile, afterCompile, hmatch, hguard]

/-- Witness for C4 amended: the zero-stacks environment exits 0 and the
listing-failure environment exits 1. -/
theorem exitCodes_c4_amended_witness :
    findStacksByMatch envNoStacks "x" "r" = ([NetCall.describeStacks], Outcome.exited 0)
    ∧ (aggregateAndNavigate envPagesFail [⟨some "A"⟩] "r").2 = Outcome.exited 1 :=
  ⟨(exitCodes_c4_amended envNoStacks "x" "r").2.1 (Or.inr rfl),
    (exitCodes_c4_amended envPagesFail "x" "r").2.2.2.2.1
      [⟨some "A"⟩] ⟨some "A"⟩ "boom" (by decide) rfl⟩

end AwsDb
